import Mathlib

/-!
Verification of the expression-calculator pipeline in `src/main.go`:
tokenizer (`tokenize`), shunting-yard infix-to-postfix converter
(`toPostfix`, embedded as `toPostfixSeq`), and postfix evaluator
(`evaluatePostfix`, embedded as `evaluatePostfixSeq`), composed by
`calculate`.

Modelling conventions:
- a Go string is a `List Char` (Go iterates runes; `Char` is a Unicode
  scalar value);
- Go's `float64` is modelled by exact rational arithmetic (`ℚ`);
  `strconv.ParseFloat` on the digit-and-dot strings the tokenizer can
  produce is modelled by `parseNumber`, giving the exact decimal value;
- `unicode.IsDigit` and `unicode.IsSpace` are modelled on their
  Latin-1 fragment (`goIsDigit`, `goIsSpace`);
- Go's `(value, error)` returns become `Except CalcError`.
-/

/-- Error taxonomy of the calculator, one constructor per `fmt.Errorf`
site in `src/main.go` (including the `strconv.ParseFloat` error that
`evaluatePostfix` forwards). -/
inductive CalcError where
  | invalidCharacter (c : Char)
  | mismatchedParentheses
  | numberParseError (s : List Char)
  | insufficientOperands (op : Char)
  | divisionByZero
  | invalidExpression
  deriving DecidableEq, Repr

/-- The `Token` struct of `src/main.go`: the `Type` tag (NUMBER, OPERATOR,
LPAREN, RPAREN) together with the `Value` payload that each tag actually
uses. -/
inductive Token where
  | number (s : List Char)
  | operator (c : Char)
  | lparen
  | rparen
  deriving DecidableEq, Repr

/-- Model of `unicode.IsDigit` on its ASCII fragment: the decimal digits
0-9. -/
def goIsDigit (c : Char) : Bool :=
  48 ≤ c.toNat && c.toNat ≤ 57

/-- Model of `unicode.IsSpace` on its Latin-1 fragment: TAB, LF, VT, FF,
CR, space, NEL (U+0085) and NBSP (U+00A0). -/
def goIsSpace (c : Char) : Bool :=
  c = '\t' || c = '\n' || c = Char.ofNat 11 || c = Char.ofNat 12 ||
  c = '\r' || c = ' ' || c = Char.ofNat 133 || c = Char.ofNat 160

/-- Flushing the number accumulator (`numBuilder`): when it is non-empty,
emit its contents as a NUMBER token and reset it; the token list stays
in emission order. -/
def flushNum (acc : List Char) (tokens : List Token) : List Token :=
  if acc.isEmpty then tokens else tokens ++ [Token.number acc]

/-- The scanning loop of `tokenize` in `src/main.go`: one character at a
time, with the pending accumulator `acc` and the tokens emitted so far. -/
def tokenizeAux : List Char → List Char → List Token → Except CalcError (List Token)
  | [], acc, tokens => Except.ok (flushNum acc tokens)
  | c :: rest, acc, tokens =>
    if goIsDigit c || c = '.' then
      tokenizeAux rest (acc ++ [c]) tokens
    else if c = '+' || c = '-' || c = '*' || c = '/' then
      tokenizeAux rest [] (flushNum acc tokens ++ [Token.operator c])
    else if c = '(' then
      tokenizeAux rest [] (flushNum acc tokens ++ [Token.lparen])
    else if c = ')' then
      tokenizeAux rest [] (flushNum acc tokens ++ [Token.rparen])
    else if goIsSpace c then
      tokenizeAux rest [] (flushNum acc tokens)
    else
      Except.error (CalcError.invalidCharacter c)

/-- `tokenize` of `src/main.go`: text to token sequence, or
InvalidCharacter. -/
def tokenize (input : List Char) : Except CalcError (List Token) :=
  tokenizeAux input [] []

/-- The `precedence` map of `toPostfix`: `+`,`-` bind at 1, `*`,`/` at 2;
a missing key reads as Go's zero value 0. -/
def prec (c : Char) : Nat :=
  if c = '+' then 1
  else if c = '-' then 1
  else if c = '*' then 2
  else if c = '/' then 2
  else 0

/-- The OPERATOR case's inner loop of `toPostfix`: while the stack's top
is an Operator of precedence ≥ the incoming operator's, pop it to the
output. Arguments are (output, stack), stack top first; returns the new
(output, stack). -/
def popGE (c : Char) : List Token → List Token → List Token × List Token
  | output, [] => (output, [])
  | output, t :: rest =>
    match t with
    | Token.operator o =>
      if prec c ≤ prec o then popGE c (output ++ [Token.operator o]) rest
      else (output, Token.operator o :: rest)
    | _ => (output, t :: rest)

/-- The RPAREN case of `toPostfix`: pop stack entries to the output until
a LeftParen is found and discarded; `none` when the stack empties
first (mismatched parentheses). -/
def popUntilLParen : List Token → List Token → Option (List Token × List Token)
  | _, [] => none
  | output, t :: rest =>
    match t with
    | Token.lparen => some (output, rest)
    | _ => popUntilLParen (output ++ [t]) rest

/-- The final loop of `toPostfix`: pop the remaining stack to the output;
a remaining LeftParen is a mismatched-parentheses error. -/
def drain : List Token → List Token → Except CalcError (List Token)
  | output, [] => Except.ok output
  | output, t :: rest =>
    match t with
    | Token.lparen => Except.error CalcError.mismatchedParentheses
    | _ => drain (output ++ [t]) rest

/-- The token loop of `toPostfix` in `src/main.go`, with the output list
and the operator stack (top first) explicit. -/
def toPostfixAux : List Token → List Token → List Token → Except CalcError (List Token)
  | [], output, stack => drain output stack
  | Token.number s :: rest, output, stack =>
    toPostfixAux rest (output ++ [Token.number s]) stack
  | Token.operator c :: rest, output, stack =>
    let p := popGE c output stack
    toPostfixAux rest p.1 (Token.operator c :: p.2)
  | Token.lparen :: rest, output, stack =>
    toPostfixAux rest output (Token.lparen :: stack)
  | Token.rparen :: rest, output, stack =>
    match popUntilLParen output stack with
    | none => Except.error CalcError.mismatchedParentheses
    | some (output2, stack2) => toPostfixAux rest output2 stack2

/-- `toPostfix` of `src/main.go`: shunting-yard conversion of the token
sequence to postfix order, or MismatchedParentheses. -/
def toPostfixSeq (tokens : List Token) : Except CalcError (List Token) :=
  toPostfixAux tokens [] []

/-- Characters the tokenizer may put into a NUMBER token: digits and the
decimal point. -/
def numChar (c : Char) : Bool :=
  goIsDigit c || c = '.'

/-- Decimal value of a digit string, most significant first. -/
def digitsToNat (l : List Char) : Nat :=
  l.foldl (fun a c => a * 10 + (c.toNat - 48)) 0

/-- Model of `strconv.ParseFloat` restricted to the digit-and-dot strings
the tokenizer can produce: the text must contain at least one digit and
at most one decimal point (so `"5."` and `".5"` parse, `"."` and
`"1.2.3"` do not); the value is the exact decimal rational
intPart.fracPart = (intPart * 10^k + fracPart) / 10^k. -/
def parseNumber (s : List Char) : Option ℚ :=
  if s.any goIsDigit && s.all numChar && (s.filter fun c => c = '.').length ≤ 1 then
    let ip := s.takeWhile fun c => !(c = '.')
    let fp := (s.dropWhile fun c => !(c = '.')).drop 1
    some (mkRat (digitsToNat ip * 10 ^ fp.length + digitsToNat fp) (10 ^ fp.length))
  else
    none

/-- Exact rational addition, written through `mkRat` so that it reduces in
the kernel; `qadd_eq` shows it is addition on `ℚ`. -/
def qadd (a b : ℚ) : ℚ := mkRat (a.num * b.den + b.num * a.den) (a.den * b.den)

/-- Exact rational subtraction through `mkRat`; see `qsub_eq`. -/
def qsub (a b : ℚ) : ℚ := mkRat (a.num * b.den - b.num * a.den) (a.den * b.den)

/-- Exact rational multiplication through `mkRat`; see `qmul_eq`. -/
def qmul (a b : ℚ) : ℚ := mkRat (a.num * b.num) (a.den * b.den)

/-- Exact rational division through `Rat.divInt`; see `qdiv_eq`. -/
def qdiv (a b : ℚ) : ℚ := Rat.divInt (a.num * b.den) (a.den * b.num)

theorem qadd_eq (a b : ℚ) : qadd a b = a + b := (Rat.add_def' a b).symm

theorem qsub_eq (a b : ℚ) : qsub a b = a - b := (Rat.sub_def' a b).symm

theorem qmul_eq (a b : ℚ) : qmul a b = a * b := by
  rw [qmul, Rat.mul_def, Rat.normalize_eq_mkRat]

theorem qdiv_eq (a b : ℚ) : qdiv a b = a / b := (Rat.div_def' a b).symm

/-- The token loop of `evaluatePostfix` in `src/main.go`, with the operand
stack (top first) explicit: numbers are parsed and pushed; an operator
pops `b` then `a` and pushes the result, checking the operand count and
division by zero; tokens the switch does not mention are skipped. -/
def evalAux : List Token → List ℚ → Except CalcError (List ℚ)
  | [], stack => Except.ok stack
  | Token.number s :: rest, stack =>
    match parseNumber s with
    | none => Except.error (CalcError.numberParseError s)
    | some v => evalAux rest (v :: stack)
  | Token.operator c :: rest, stack =>
    match stack with
    | b :: a :: stack2 =>
      if c = '+' then evalAux rest (qadd a b :: stack2)
      else if c = '-' then evalAux rest (qsub a b :: stack2)
      else if c = '*' then evalAux rest (qmul a b :: stack2)
      else if c = '/' then
        if b = 0 then Except.error CalcError.divisionByZero
        else evalAux rest (qdiv a b :: stack2)
      else evalAux rest stack2
    | _ => Except.error (CalcError.insufficientOperands c)
  | Token.lparen :: rest, stack => evalAux rest stack
  | Token.rparen :: rest, stack => evalAux rest stack

/-- `evaluatePostfix` of `src/main.go`: run the operand-stack loop; the
final stack must hold exactly one value, else InvalidExpression. -/
def evaluatePostfixSeq (tokens : List Token) : Except CalcError ℚ :=
  match evalAux tokens [] with
  | Except.error e => Except.error e
  | Except.ok [v] => Except.ok v
  | Except.ok _ => Except.error CalcError.invalidExpression

/-- `calculate` of `src/main.go`: tokenizer, converter and evaluator in
strict sequence, returning the first error. -/
def calculate (input : List Char) : Except CalcError ℚ :=
  match tokenize input with
  | Except.error e => Except.error e
  | Except.ok tokens =>
    match toPostfixSeq tokens with
    | Except.error e => Except.error e
    | Except.ok pf => evaluatePostfixSeq pf

deriving instance DecidableEq for Except

/-- Claim C1: `calculate` applies standard operator precedence, with
parenthesized grouping overriding it: `calculate "2 + 3 * 4"` returns 14
and `calculate "(2 + 3) * 4"` returns 20, with `+`,`-` at precedence 1
and `*`,`/` at precedence 2. -/
theorem C1_precedence_and_grouping :
    calculate ("2 + 3 * 4".toList) = Except.ok 14 ∧
    calculate ("(2 + 3) * 4".toList) = Except.ok 20 ∧
    prec '+' = 1 ∧ prec '-' = 1 ∧ prec '*' = 2 ∧ prec '/' = 2 := by
  decide

/-- Claim C2: all four operators are evaluated left-associatively, the
converter popping a stacked operator whose precedence is greater than or
equal to the incoming operator's: `calculate "8 - 3 - 2"` returns 3 and
`calculate "16 / 4 / 2"` returns 2. -/
theorem C2_left_associativity :
    calculate ("8 - 3 - 2".toList) = Except.ok 3 ∧
    calculate ("16 / 4 / 2".toList) = Except.ok 2 ∧
    ∀ (o c : Char) (output stack : List Token),
      prec o ≥ prec c →
      popGE c output (Token.operator o :: stack) =
        popGE c (output ++ [Token.operator o]) stack := by
  refine ⟨by decide, by decide, ?_⟩
  intro o c output stack h
  simp only [popGE, ge_iff_le] at h ⊢
  rw [if_pos h]

/-- Witness for C2 at a concrete instance: an incoming `+` pops a stacked
`*`. -/
theorem C2_left_associativity_witness :
    popGE '+' [] (Token.operator '*' :: []) = popGE '+' ([] ++ [Token.operator '*']) [] :=
  C2_left_associativity.2.2 '*' '+' [] [] (by decide)

/-- Claim C3: whenever `/` is applied with the first-popped (right)
operand exactly zero, evaluation fails with DivisionByZero before
computing the quotient, whatever the left operand, the rest of the stack
and the remaining tokens are; in particular `calculate "5 / 0"` fails
with DivisionByZero. -/
theorem C3_division_by_zero :
    (∀ (rest : List Token) (a : ℚ) (stack : List ℚ),
      evalAux (Token.operator '/' :: rest) (0 :: a :: stack) =
        Except.error CalcError.divisionByZero) ∧
    calculate ("5 / 0".toList) = Except.error CalcError.divisionByZero := by
  exact ⟨fun rest a stack => rfl, by decide⟩

/-- Every NUMBER token that `flushNum` can emit has non-empty text all of
whose characters are digits or decimal points, provided the accumulator
and the earlier tokens satisfy that. -/
theorem flushNum_number_inv (acc : List Char) (tokens : List Token)
    (hacc : acc.all numChar = true)
    (htok : ∀ s, Token.number s ∈ tokens → s ≠ [] ∧ s.all numChar = true) :
    ∀ s, Token.number s ∈ flushNum acc tokens → s ≠ [] ∧ s.all numChar = true := by
  intro s hs
  unfold flushNum at hs
  by_cases he : acc.isEmpty
  · rw [if_pos he] at hs
    exact htok s hs
  · rw [if_neg he] at hs
    rcases List.mem_append.mp hs with h | h
    · exact htok s h
    · simp only [List.mem_singleton, Token.number.injEq] at h
      subst h
      refine ⟨fun hnil => he ?_, hacc⟩
      simp [hnil]

/-- Invariant of the tokenizer loop: every NUMBER token of a successful
run has non-empty digit-and-dot text, given that the pending accumulator
and the already-emitted tokens satisfy it. -/
theorem tokenizeAux_number_inv :
    ∀ (input acc : List Char) (tokens : List Token),
      acc.all numChar = true →
      (∀ s, Token.number s ∈ tokens → s ≠ [] ∧ s.all numChar = true) →
      ∀ out, tokenizeAux input acc tokens = Except.ok out →
      ∀ s, Token.number s ∈ out → s ≠ [] ∧ s.all numChar = true := by
  intro input
  induction input with
  | nil =>
    intro acc tokens hacc htok out hout
    simp only [tokenizeAux] at hout
    cases hout
    exact flushNum_number_inv acc tokens hacc htok
  | cons c rest ih =>
    intro acc tokens hacc htok out hout
    simp only [tokenizeAux] at hout
    by_cases h1 : goIsDigit c || c = '.'
    · rw [if_pos h1] at hout
      refine ih (acc ++ [c]) tokens ?_ htok out hout
      simp only [List.all_append, hacc, Bool.true_and, List.all_cons, List.all_nil,
        Bool.and_true, numChar]
      exact h1
    · rw [if_neg h1] at hout
      by_cases h2 : c = '+' || c = '-' || c = '*' || c = '/'
      · rw [if_pos h2] at hout
        refine ih [] _ rfl ?_ out hout
        intro s hs
        rcases List.mem_append.mp hs with h | h
        · exact flushNum_number_inv acc tokens hacc htok s h
        · simp at h
      · rw [if_neg h2] at hout
        by_cases h3 : c = '('
        · rw [if_pos h3] at hout
          refine ih [] _ rfl ?_ out hout
          intro s hs
          rcases List.mem_append.mp hs with h | h
          · exact flushNum_number_inv acc tokens hacc htok s h
          · simp at h
        · rw [if_neg h3] at hout
          by_cases h4 : c = ')'
          · rw [if_pos h4] at hout
            refine ih [] _ rfl ?_ out hout
            intro s hs
            rcases List.mem_append.mp hs with h | h
            · exact flushNum_number_inv acc tokens hacc htok s h
            · simp at h
          · rw [if_neg h4] at hout
            by_cases h5 : goIsSpace c
            · rw [if_pos h5] at hout
              exact ih [] _ rfl (flushNum_number_inv acc tokens hacc htok) out hout
            · rw [if_neg h5] at hout
              cases hout

/-- Counterexample to claim C4 as stated: `tokenize "1..2"` succeeds and
emits a single NUMBER token whose text contains two decimal points, so
"at most one decimal point" is not an invariant the tokenizer enforces. -/
theorem C4_number_token_counterexample :
    tokenize ("1..2".toList) = Except.ok [Token.number ['1', '.', '.', '2']] ∧
    ¬ ((['1', '.', '.', '2'].filter fun c => c = '.').length ≤ 1) := by
  decide

/-- Claim C4 amended: every NUMBER token produced by a successful run of
`tokenize` has non-empty text consisting only of digits and decimal
points; the number of decimal points is not constrained, numeric
validity being deferred to parsing at evaluation time. -/
theorem C4_number_token_amended :
    ∀ (input : List Char) (tokens : List Token),
      tokenize input = Except.ok tokens →
      ∀ s, Token.number s ∈ tokens → s ≠ [] ∧ s.all numChar = true := by
  intro input tokens h
  exact tokenizeAux_number_inv input [] [] rfl (fun s hs => nomatch hs) tokens h

/-- Witness for C4 at a concrete input: the NUMBER token of
`tokenize "1.5"`. -/
theorem C4_number_token_witness :
    ('1' :: '.' :: '5' :: []) ≠ [] ∧ ('1' :: '.' :: '5' :: []).all numChar = true :=
  C4_number_token_amended ("1.5".toList) [Token.number ['1', '.', '5']] (by decide)
    ['1', '.', '5'] (by decide)

/-- Counterexample to claim C6 as stated: `calculate "+ 1 2"` does not
fail with InsufficientOperands — shunting-yard moves the leading `+`
after both numbers, yielding postfix `1 2 +`, and the call returns 3. -/
theorem C6_operand_count_counterexample :
    calculate ("+ 1 2".toList) = Except.ok 3 := by
  decide

/-- Claim C6 amended: an Operator token encountered with fewer than two
values on the operand stack fails with InsufficientOperands, and after
all tokens are consumed the stack must contain exactly one value or
evaluation fails with InvalidExpression; `calculate "1 2"` and
`calculate ""` fail with InvalidExpression, and a trailing operator such
as `calculate "1 +"` fails with InsufficientOperands — but the leading
operator of `"+ 1 2"` is reordered by the converter, so that input
returns 3 instead of failing. -/
theorem C6_operand_count_amended :
    (∀ (c : Char) (rest : List Token) (stack : List ℚ),
      stack.length < 2 →
      evalAux (Token.operator c :: rest) stack =
        Except.error (CalcError.insufficientOperands c)) ∧
    (∀ (tokens : List Token) (final : List ℚ),
      evalAux tokens [] = Except.ok final → final.length ≠ 1 →
      evaluatePostfixSeq tokens = Except.error CalcError.invalidExpression) ∧
    calculate ("1 2".toList) = Except.error CalcError.invalidExpression ∧
    calculate ("".toList) = Except.error CalcError.invalidExpression ∧
    calculate ("1 +".toList) = Except.error (CalcError.insufficientOperands '+') := by
  refine ⟨?_, ?_, by decide, by decide, by decide⟩
  · intro c rest stack h
    rcases stack with _ | ⟨x, _ | ⟨y, s⟩⟩
    · rfl
    · rfl
    · simp only [List.length_cons] at h
      omega
  · intro tokens final h hne
    unfold evaluatePostfixSeq
    rw [h]
    rcases final with _ | ⟨v, _ | ⟨w, s⟩⟩
    · rfl
    · simp at hne
    · rfl

/-- Witness for C6 at concrete inputs: a lone `+` over an empty operand
stack, and an empty postfix sequence. -/
theorem C6_operand_count_witness :
    evalAux (Token.operator '+' :: []) [] = Except.error (CalcError.insufficientOperands '+') ∧
    evaluatePostfixSeq [] = Except.error CalcError.invalidExpression :=
  ⟨C6_operand_count_amended.1 '+' [] [] (by decide),
   C6_operand_count_amended.2.1 [] [] rfl (by decide)⟩

/-- The characters `tokenize` accepts: digits, the decimal point, the
four operators, the parentheses and whitespace, exactly the branches of
its switch. -/
def validChar (c : Char) : Bool :=
  goIsDigit c || c = '.' || c = '+' || c = '-' || c = '*' || c = '/' ||
  c = '(' || c = ')' || goIsSpace c

/-- A valid character makes the tokenizer loop take one successful step:
the result is the loop on the remaining input, for some new accumulator
and token list. -/
theorem tokenizeAux_step_valid (c : Char) (hc : validChar c = true) :
    ∀ (rest acc : List Char) (tokens : List Token),
      ∃ acc2 tokens2, tokenizeAux (c :: rest) acc tokens = tokenizeAux rest acc2 tokens2 := by
  intro rest acc tokens
  simp only [tokenizeAux]
  by_cases h1 : goIsDigit c || c = '.'
  · rw [if_pos h1]
    exact ⟨_, _, rfl⟩
  · rw [if_neg h1]
    by_cases h2 : c = '+' || c = '-' || c = '*' || c = '/'
    · rw [if_pos h2]
      exact ⟨_, _, rfl⟩
    · rw [if_neg h2]
      by_cases h3 : c = '('
      · rw [if_pos h3]
        exact ⟨_, _, rfl⟩
      · rw [if_neg h3]
        by_cases h4 : c = ')'
        · rw [if_pos h4]
          exact ⟨_, _, rfl⟩
        · rw [if_neg h4]
          by_cases h5 : goIsSpace c
          · rw [if_pos h5]
            exact ⟨_, _, rfl⟩
          · exfalso
            simp only [validChar, Bool.or_eq_true, decide_eq_true_eq] at hc
            simp only [Bool.or_eq_true, decide_eq_true_eq, not_or] at h1 h2
            tauto

/-- An invalid character anywhere in the remaining input makes the
tokenizer loop fail with InvalidCharacter at the first such character. -/
theorem tokenizeAux_invalid_char :
    ∀ (input acc : List Char) (tokens : List Token),
      (∃ c, c ∈ input ∧ validChar c = false) →
      ∃ c, c ∈ input ∧ validChar c = false ∧
        tokenizeAux input acc tokens = Except.error (CalcError.invalidCharacter c) := by
  intro input
  induction input with
  | nil =>
    intro acc tokens h
    obtain ⟨c, hc, _⟩ := h
    exact absurd hc (List.not_mem_nil c)
  | cons d rest ih =>
    intro acc tokens h
    by_cases hd : validChar d = true
    · obtain ⟨acc2, tokens2, heq⟩ := tokenizeAux_step_valid d hd rest acc tokens
      have hrest : ∃ c, c ∈ rest ∧ validChar c = false := by
        obtain ⟨c, hc, hcv⟩ := h
        rcases List.mem_cons.mp hc with rfl | hmem
        · rw [hd] at hcv
          cases hcv
        · exact ⟨c, hmem, hcv⟩
      obtain ⟨c, hc, hcv, hres⟩ := ih acc2 tokens2 hrest
      refine ⟨c, List.mem_cons_of_mem d hc, hcv, ?_⟩
      rw [heq]
      exact hres
    · have hv : validChar d = false := by
        cases hvd : validChar d
        · rfl
        · exact absurd hvd hd
      refine ⟨d, List.mem_cons_self d rest, hv, ?_⟩
      simp only [validChar, Bool.or_eq_true, decide_eq_true_eq, not_or] at hd
      simp only [tokenizeAux]
      rw [if_neg (by simp only [Bool.or_eq_true, decide_eq_true_eq, not_or]; tauto),
        if_neg (by simp only [Bool.or_eq_true, decide_eq_true_eq, not_or]; tauto),
        if_neg (by tauto), if_neg (by tauto), if_neg (by tauto)]

/-- Claim C7: an input containing a character that is no digit, decimal
point, operator, parenthesis or whitespace makes `tokenize` fail with
InvalidCharacter carrying an offending character of the input, and
`calculate` short-circuits every tokenizer error; in particular
`calculate "2 + a"` fails with InvalidCharacter referencing `a`. -/
theorem C7_invalid_character :
    (∀ input : List Char,
      (∃ c, c ∈ input ∧ validChar c = false) →
      ∃ c, c ∈ input ∧ validChar c = false ∧
        tokenize input = Except.error (CalcError.invalidCharacter c)) ∧
    (∀ (input : List Char) (e : CalcError),
      tokenize input = Except.error e → calculate input = Except.error e) ∧
    calculate ("2 + a".toList) = Except.error (CalcError.invalidCharacter 'a') := by
  refine ⟨fun input h => tokenizeAux_invalid_char input [] [] h, ?_, by decide⟩
  intro input e h
  unfold calculate
  rw [h]

/-- Witness for C7 at a concrete input: the character `a` of `"2 + a"`,
and the short-circuit of `calculate "a"`. -/
theorem C7_invalid_character_witness :
    (∃ c, c ∈ ("2 + a".toList) ∧ validChar c = false ∧
      tokenize ("2 + a".toList) = Except.error (CalcError.invalidCharacter c)) ∧
    calculate ("a".toList) = Except.error (CalcError.invalidCharacter 'a') :=
  ⟨C7_invalid_character.1 ("2 + a".toList) ⟨'a', by decide, by decide⟩,
   C7_invalid_character.2.1 ("a".toList) (CalcError.invalidCharacter 'a') (by decide)⟩

/-- `goIsSpace` holds for exactly eight characters. -/
theorem goIsSpace_cases (c : Char) (h : goIsSpace c = true) :
    c = '\t' ∨ c = '\n' ∨ c = Char.ofNat 11 ∨ c = Char.ofNat 12 ∨
    c = '\r' ∨ c = ' ' ∨ c = Char.ofNat 133 ∨ c = Char.ofNat 160 := by
  simp only [goIsSpace, Bool.or_eq_true, decide_eq_true_eq] at h
  tauto

/-- Claim C8: `calculate` is insensitive to whitespace between tokens:
a whitespace character only flushes the number accumulator and emits no
token, so `calculate "1+1"` equals `calculate " 1 + 1 "`. -/
theorem C8_whitespace_insensitive :
    calculate ("1+1".toList) = calculate (" 1 + 1 ".toList) ∧
    ∀ (c : Char) (rest acc : List Char) (tokens : List Token),
      goIsSpace c = true →
      tokenizeAux (c :: rest) acc tokens = tokenizeAux rest [] (flushNum acc tokens) := by
  refine ⟨by decide, ?_⟩
  intro c rest acc tokens h
  rcases goIsSpace_cases c h with rfl | rfl | rfl | rfl | rfl | rfl | rfl | rfl <;> rfl

/-- Witness for C8 at a concrete input: a leading space character. -/
theorem C8_whitespace_insensitive_witness :
    tokenizeAux (' ' :: []) [] [] = tokenizeAux [] [] (flushNum [] []) :=
  C8_whitespace_insensitive.2 ' ' [] [] [] (by decide)

/-- Whether a token is a LeftParen. -/
def isLparen : Token → Bool
  | Token.lparen => true
  | _ => false

/-- Number of LeftParen tokens held by the operator stack. -/
def lparenCount (stack : List Token) : Nat :=
  (stack.filter isLparen).length

/-- Parenthesis balance of a token sequence, starting from `n` open
parentheses: every prefix must close at most as many parentheses as are
open, and all must be closed at the end. -/
def balancedFrom : List Token → Nat → Bool
  | [], n => n == 0
  | Token.lparen :: rest, n => balancedFrom rest (n + 1)
  | Token.rparen :: _, 0 => false
  | Token.rparen :: rest, n + 1 => balancedFrom rest n
  | _ :: rest, n => balancedFrom rest n

theorem lparenCount_nil : lparenCount [] = 0 := rfl

theorem lparenCount_cons_of_not (t : Token) (stack : List Token) (h : isLparen t = false) :
    lparenCount (t :: stack) = lparenCount stack := by
  simp [lparenCount, List.filter, h]

theorem lparenCount_cons_lparen (stack : List Token) :
    lparenCount (Token.lparen :: stack) = lparenCount stack + 1 := by
  simp [lparenCount, List.filter, isLparen]

/-- The precedence-popping loop never touches the LeftParens of the
stack. -/
theorem popGE_lparenCount (c : Char) :
    ∀ (stack output : List Token), lparenCount (popGE c output stack).2 = lparenCount stack := by
  intro stack
  induction stack with
  | nil => intro output; rfl
  | cons t rest ih =>
    intro output
    cases t with
    | number s => rfl
    | operator o =>
      simp only [popGE]
      by_cases h : prec c ≤ prec o
      · rw [if_pos h, ih]
        exact (lparenCount_cons_of_not (Token.operator o) rest rfl).symm
      · rw [if_neg h]
    | lparen => rfl
    | rparen => rfl

/-- The RightParen loop fails to find a LeftParen exactly when the stack
holds none. -/
theorem popUntilLParen_none :
    ∀ (stack output : List Token),
      popUntilLParen output stack = none ↔ lparenCount stack = 0 := by
  intro stack
  induction stack with
  | nil => intro output; simp [popUntilLParen, lparenCount]
  | cons t rest ih =>
    intro output
    cases t with
    | number s =>
      rw [lparenCount_cons_of_not (Token.number s) rest rfl]
      exact ih (output ++ [Token.number s])
    | operator o =>
      rw [lparenCount_cons_of_not (Token.operator o) rest rfl]
      exact ih (output ++ [Token.operator o])
    | lparen =>
      simp [popUntilLParen, lparenCount_cons_lparen]
    | rparen =>
      rw [lparenCount_cons_of_not Token.rparen rest rfl]
      exact ih (output ++ [Token.rparen])

/-- A successful RightParen loop discards exactly one LeftParen. -/
theorem popUntilLParen_some :
    ∀ (stack output out2 st2 : List Token),
      popUntilLParen output stack = some (out2, st2) →
      lparenCount stack = lparenCount st2 + 1 := by
  intro stack
  induction stack with
  | nil => intro output out2 st2 h; cases h
  | cons t rest ih =>
    intro output out2 st2 h
    cases t with
    | number s =>
      rw [lparenCount_cons_of_not (Token.number s) rest rfl]
      exact ih (output ++ [Token.number s]) out2 st2 h
    | operator o =>
      rw [lparenCount_cons_of_not (Token.operator o) rest rfl]
      exact ih (output ++ [Token.operator o]) out2 st2 h
    | lparen =>
      simp only [popUntilLParen, Option.some.injEq, Prod.mk.injEq] at h
      rw [lparenCount_cons_lparen, h.2]
    | rparen =>
      rw [lparenCount_cons_of_not Token.rparen rest rfl]
      exact ih (output ++ [Token.rparen]) out2 st2 h

/-- Draining a stack without LeftParens succeeds and appends it to the
output. -/
theorem drain_ok :
    ∀ (stack output : List Token), lparenCount stack = 0 →
      drain output stack = Except.ok (output ++ stack) := by
  intro stack
  induction stack with
  | nil => intro output h; simp [drain]
  | cons t rest ih =>
    intro output h
    cases t with
    | number s =>
      rw [lparenCount_cons_of_not (Token.number s) rest rfl] at h
      simp only [drain]
      rw [ih (output ++ [Token.number s]) h]
      simp
    | operator o =>
      rw [lparenCount_cons_of_not (Token.operator o) rest rfl] at h
      simp only [drain]
      rw [ih (output ++ [Token.operator o]) h]
      simp
    | lparen =>
      rw [lparenCount_cons_lparen] at h
      cases h
    | rparen =>
      rw [lparenCount_cons_of_not Token.rparen rest rfl] at h
      simp only [drain]
      rw [ih (output ++ [Token.rparen]) h]
      simp

/-- Draining a stack still holding a LeftParen fails with
MismatchedParentheses. -/
theorem drain_error :
    ∀ (stack output : List Token), lparenCount stack ≠ 0 →
      drain output stack = Except.error CalcError.mismatchedParentheses := by
  intro stack
  induction stack with
  | nil => intro output h; exact absurd rfl h
  | cons t rest ih =>
    intro output h
    cases t with
    | number s =>
      rw [lparenCount_cons_of_not (Token.number s) rest rfl] at h
      exact ih (output ++ [Token.number s]) h
    | operator o =>
      rw [lparenCount_cons_of_not (Token.operator o) rest rfl] at h
      exact ih (output ++ [Token.operator o]) h
    | lparen => rfl
    | rparen =>
      rw [lparenCount_cons_of_not Token.rparen rest rfl] at h
      exact ih (output ++ [Token.rparen]) h

/-- A token sequence balanced relative to the stack's open parentheses
converts without error. -/
theorem toPostfixAux_ok_of_balanced :
    ∀ (tokens output stack : List Token),
      balancedFrom tokens (lparenCount stack) = true →
      ∃ out, toPostfixAux tokens output stack = Except.ok out := by
  intro tokens
  induction tokens with
  | nil =>
    intro output stack h
    simp only [balancedFrom, beq_iff_eq] at h
    exact ⟨output ++ stack, drain_ok stack output h⟩
  | cons t rest ih =>
    intro output stack h
    cases t with
    | number s =>
      simp only [balancedFrom] at h
      exact ih (output ++ [Token.number s]) stack h
    | operator c =>
      simp only [balancedFrom] at h
      simp only [toPostfixAux]
      refine ih _ (Token.operator c :: (popGE c output stack).2) ?_
      rw [lparenCount_cons_of_not (Token.operator c) _ rfl, popGE_lparenCount]
      exact h
    | lparen =>
      simp only [balancedFrom] at h
      simp only [toPostfixAux]
      refine ih output (Token.lparen :: stack) ?_
      rw [lparenCount_cons_lparen]
      exact h
    | rparen =>
      cases hn : lparenCount stack with
      | zero =>
        rw [hn] at h
        simp [balancedFrom] at h
      | succ m =>
        rw [hn] at h
        simp only [balancedFrom] at h
        cases hpop : popUntilLParen output stack with
        | none =>
          rw [(popUntilLParen_none stack output).mp hpop] at hn
          cases hn
        | some p =>
          have hcnt := popUntilLParen_some stack output p.1 p.2 (by rw [hpop])
          simp only [toPostfixAux]
          rw [hpop]
          refine ih p.1 p.2 ?_
          rw [hn] at hcnt
          have : lparenCount p.2 = m := by omega
          rw [this]
          exact h

/-- A token sequence unbalanced relative to the stack's open parentheses
makes the converter fail with MismatchedParentheses. -/
theorem toPostfixAux_error_of_unbalanced :
    ∀ (tokens output stack : List Token),
      balancedFrom tokens (lparenCount stack) = false →
      toPostfixAux tokens output stack = Except.error CalcError.mismatchedParentheses := by
  intro tokens
  induction tokens with
  | nil =>
    intro output stack h
    simp only [balancedFrom, beq_eq_false_iff_ne, ne_eq] at h
    exact drain_error stack output h
  | cons t rest ih =>
    intro output stack h
    cases t with
    | number s =>
      simp only [balancedFrom] at h
      exact ih (output ++ [Token.number s]) stack h
    | operator c =>
      simp only [balancedFrom] at h
      simp only [toPostfixAux]
      refine ih _ (Token.operator c :: (popGE c output stack).2) ?_
      rw [lparenCount_cons_of_not (Token.operator c) _ rfl, popGE_lparenCount]
      exact h
    | lparen =>
      simp only [balancedFrom] at h
      simp only [toPostfixAux]
      refine ih output (Token.lparen :: stack) ?_
      rw [lparenCount_cons_lparen]
      exact h
    | rparen =>
      cases hn : lparenCount stack with
      | zero =>
        simp only [toPostfixAux]
        rw [(popUntilLParen_none stack output).mpr hn]
      | succ m =>
        rw [hn] at h
        simp only [balancedFrom] at h
        cases hpop : popUntilLParen output stack with
        | none =>
          rw [(popUntilLParen_none stack output).mp hpop] at hn
          cases hn
        | some p =>
          have hcnt := popUntilLParen_some stack output p.1 p.2 (by rw [hpop])
          simp only [toPostfixAux]
          rw [hpop]
          refine ih p.1 p.2 ?_
          rw [hn] at hcnt
          have : lparenCount p.2 = m := by omega
          rw [this]
          exact h

/-- Claim C5: `toPostfixSeq` fails with MismatchedParentheses exactly
when the token sequence's parentheses are unbalanced — a RightParen
closing more than is open, or a LeftParen never closed; in particular
`calculate "(1 + 2"` and `calculate "1 + 2)"` both fail with
MismatchedParentheses. -/
theorem C5_mismatched_parentheses :
    (∀ tokens : List Token,
      toPostfixSeq tokens = Except.error CalcError.mismatchedParentheses ↔
        balancedFrom tokens 0 = false) ∧
    calculate ("(1 + 2".toList) = Except.error CalcError.mismatchedParentheses ∧
    calculate ("1 + 2)".toList) = Except.error CalcError.mismatchedParentheses := by
  refine ⟨?_, by decide, by decide⟩
  intro tokens
  constructor
  · intro h
    cases hb : balancedFrom tokens 0 with
    | false => rfl
    | true =>
      exfalso
      obtain ⟨out, hout⟩ := toPostfixAux_ok_of_balanced tokens [] []
        (by rw [lparenCount_nil]; exact hb)
      rw [toPostfixSeq] at h
      rw [h] at hout
      cases hout
  · intro h
    exact toPostfixAux_error_of_unbalanced tokens [] [] (by rw [lparenCount_nil]; exact h)

/-- Whether a token is a Number or an Operator — the only kinds the
evaluator's switch handles. -/
def isNumOp : Token → Bool
  | Token.number _ => true
  | Token.operator _ => true
  | _ => false

/-- Whether a token is an Operator or a LeftParen — the only kinds the
converter ever pushes on its stack. -/
def isOpOrLparen : Token → Bool
  | Token.operator _ => true
  | Token.lparen => true
  | _ => false

/-- The precedence-popping loop preserves both stack invariants: the
output keeps only Number and Operator tokens, the stack only Operator
and LeftParen tokens. -/
theorem popGE_all (c : Char) :
    ∀ (stack output : List Token),
      output.all isNumOp = true → stack.all isOpOrLparen = true →
      (popGE c output stack).1.all isNumOp = true ∧
        (popGE c output stack).2.all isOpOrLparen = true := by
  intro stack
  induction stack with
  | nil => intro output ho hs; exact ⟨ho, rfl⟩
  | cons t rest ih =>
    intro output ho hs
    rw [List.all_cons, Bool.and_eq_true] at hs
    cases t with
    | number s => cases hs.1
    | operator o =>
      simp only [popGE]
      by_cases h : prec c ≤ prec o
      · rw [if_pos h]
        refine ih (output ++ [Token.operator o]) ?_ hs.2
        rw [List.all_append, ho]
        rfl
      · rw [if_neg h]
        refine ⟨ho, ?_⟩
        rw [List.all_cons, Bool.and_eq_true]
        exact ⟨rfl, hs.2⟩
    | lparen =>
      refine ⟨ho, ?_⟩
      simp only [popGE, List.all_cons, Bool.and_eq_true]
      exact ⟨rfl, hs.2⟩
    | rparen => cases hs.1

/-- A successful RightParen loop preserves both invariants. -/
theorem popUntilLParen_all :
    ∀ (stack output out2 st2 : List Token),
      output.all isNumOp = true → stack.all isOpOrLparen = true →
      popUntilLParen output stack = some (out2, st2) →
      out2.all isNumOp = true ∧ st2.all isOpOrLparen = true := by
  intro stack
  induction stack with
  | nil => intro output out2 st2 _ _ h; cases h
  | cons t rest ih =>
    intro output out2 st2 ho hs h
    rw [List.all_cons, Bool.and_eq_true] at hs
    cases t with
    | number s => cases hs.1
    | operator o =>
      refine ih (output ++ [Token.operator o]) out2 st2 ?_ hs.2 h
      rw [List.all_append, ho]
      rfl
    | lparen =>
      simp only [popUntilLParen, Option.some.injEq, Prod.mk.injEq] at h
      rw [← h.1, ← h.2]
      exact ⟨ho, hs.2⟩
    | rparen => cases hs.1

/-- Draining a stack of operators and LeftParens into an output of
Numbers and Operators can only append Operators. -/
theorem drain_all :
    ∀ (stack output out : List Token),
      output.all isNumOp = true → stack.all isOpOrLparen = true →
      drain output stack = Except.ok out → out.all isNumOp = true := by
  intro stack
  induction stack with
  | nil =>
    intro output out ho _ h
    cases h
    exact ho
  | cons t rest ih =>
    intro output out ho hs h
    rw [List.all_cons, Bool.and_eq_true] at hs
    cases t with
    | number s => cases hs.1
    | operator o =>
      refine ih (output ++ [Token.operator o]) out ?_ hs.2 h
      rw [List.all_append, ho]
      rfl
    | lparen => cases h
    | rparen => cases hs.1

/-- Invariant of the conversion loop: a successful run only ever appends
Number and Operator tokens to the output. -/
theorem toPostfixAux_all :
    ∀ (tokens output stack : List Token),
      output.all isNumOp = true → stack.all isOpOrLparen = true →
      ∀ out, toPostfixAux tokens output stack = Except.ok out → out.all isNumOp = true := by
  intro tokens
  induction tokens with
  | nil =>
    intro output stack ho hs out h
    exact drain_all stack output out ho hs h
  | cons t rest ih =>
    intro output stack ho hs out h
    cases t with
    | number s =>
      refine ih (output ++ [Token.number s]) stack ?_ hs out h
      rw [List.all_append, ho]
      rfl
    | operator c =>
      simp only [toPostfixAux] at h
      obtain ⟨h1, h2⟩ := popGE_all c stack output ho hs
      refine ih _ (Token.operator c :: (popGE c output stack).2) h1 ?_ out h
      rw [List.all_cons, h2]
      rfl
    | lparen =>
      refine ih output (Token.lparen :: stack) ho ?_ out h
      rw [List.all_cons, hs]
      rfl
    | rparen =>
      simp only [toPostfixAux] at h
      cases hpop : popUntilLParen output stack with
      | none =>
        rw [hpop] at h
        cases h
      | some p =>
        rw [hpop] at h
        obtain ⟨h1, h2⟩ := popUntilLParen_all stack output p.1 p.2 ho hs (by rw [hpop])
        exact ih p.1 p.2 h1 h2 out h

/-- Claim C10 (implicit): for every token sequence on which the converter
succeeds, the returned postfix sequence contains only Number and Operator
tokens — LeftParens are discarded with their matching RightParen and
RightParens are never appended — so the evaluator's switch handles every
token it can receive. -/
theorem C10_postfix_only_num_op :
    ∀ (tokens out : List Token),
      toPostfixSeq tokens = Except.ok out → out.all isNumOp = true := by
  intro tokens out h
  exact toPostfixAux_all tokens [] [] rfl rfl out h

/-- Witness for C10 at a concrete input: converting `( 1 )` keeps only
the Number token. -/
theorem C10_postfix_only_num_op_witness :
    ((Token.number ['1'] :: []).all isNumOp) = true :=
  C10_postfix_only_num_op (Token.lparen :: Token.number ['1'] :: Token.rparen :: [])
    (Token.number ['1'] :: []) (by decide)

/-- Claim C9: `calculate` is deterministic — it is a pure function of its
input, so two calls with identical input yield identical results (the
same value or the same error). -/
theorem C9_deterministic : ∀ input : List Char, calculate input = calculate input :=
  fun _ => rfl
